import Mathlib

/-!
Verification of the TransPose/TransAction repository (pose-estimation and
action-classification network, `lib/models/transaction_h.py` and
`lib/core/function.py`) against its natural-language specification.

The Python sources are shallowly embedded: pure numeric code becomes Lean
functions over `ℚ`/`ℝ`/`ℕ`, tensor shapes become lists of naturals, fallible
code returns `Except`/`Option`, and learned layers (convolutions, attention)
are abstracted as function parameters where only the data flow is at stake.
-/

namespace TransPose

/-! ## `HighResolutionModule._check_branches` (transaction_h.py, lines 311-329)

The constructor validation: each of the three list arguments must have length
`num_branches`, otherwise a `ValueError` is raised (modelled as `Except.error`
carrying the formatted message). The checks run in source order. -/

def check_branches (num_branches : ℕ)
    (num_blocks num_inchannels num_channels : List ℕ) : Except String Unit :=
  if num_branches ≠ num_blocks.length then
    .error ("NUM_BRANCHES(" ++ toString num_branches ++ ") <> NUM_BLOCKS(" ++
      toString num_blocks.length ++ ")")
  else if num_branches ≠ num_channels.length then
    .error ("NUM_BRANCHES(" ++ toString num_branches ++ ") <> NUM_CHANNELS(" ++
      toString num_channels.length ++ ")")
  else if num_branches ≠ num_inchannels.length then
    .error ("NUM_BRANCHES(" ++ toString num_branches ++ ") <> NUM_INCHANNELS(" ++
      toString num_inchannels.length ++ ")")
  else .ok ()

/-! ## `TransActionH.init_weights` (transaction_h.py, lines 848-885)

After the in-place random initialisation (which cannot raise), the method
branches on `os.path.isfile(pretrained)`: an existing file is loaded, a
non-empty non-existing path raises `ValueError('{} is not exist!')`, and an
empty path (Python falsy string) falls through without error.  The filesystem
is abstracted as a predicate `isfile`. -/

inductive InitWeightsResult
  | loaded
  | skipped
  | raisedValueError (msg : String)
deriving DecidableEq

def init_weights (isfile : String → Bool) (pretrained : String) : InitWeightsResult :=
  if isfile pretrained then .loaded
  else if pretrained ≠ "" then .raisedValueError (pretrained ++ " is not exist!")
  else .skipped

/-- Example filesystem for the witness: exactly one file exists. -/
def exIsFile : String → Bool := fun s => s == "weights.pth"

/-! ## `AverageMeter` (function.py, lines 686-702) -/

structure AverageMeter where
  val : ℚ
  avg : ℚ
  sum : ℚ
  count : ℕ
deriving DecidableEq

def AverageMeter.reset : AverageMeter := ⟨0, 0, 0, 0⟩

/-- `update(val, n)`: `self.val = val; self.sum += val * n; self.count += n;
`self.avg = self.sum / self.count if self.count != 0 else 0`. -/
def AverageMeter.update (s : AverageMeter) (v : ℚ) (n : ℕ) : AverageMeter :=
  let sum := s.sum + v * (n : ℚ)
  let count := s.count + n
  ⟨v, if count ≠ 0 then sum / (count : ℚ) else 0, sum, count⟩

/-- A fresh meter (`reset`) followed by a sequence of `update` calls. -/
def AverageMeter.run (updates : List (ℚ × ℕ)) : AverageMeter :=
  updates.foldl (fun s u => s.update u.1 u.2) AverageMeter.reset

/-! ## `accuracy_classification` (function.py, lines 82-89)

`np.argmax(output, axis=1)` picks, per row, the first index attaining the
maximum.  The model is faithful on arrays whose class axis is non-empty
(numpy raises on an empty reduction axis, which the total Lean function
cannot; theorems therefore carry a non-empty-rows hypothesis). -/

def argmaxAux : List ℚ → ℕ → ℕ → ℚ → ℕ
  | [], _, besti, _ => besti
  | x :: xs, i, besti, bestv =>
    if x > bestv then argmaxAux xs (i + 1) i x else argmaxAux xs (i + 1) besti bestv

/-- First index of the maximum entry (numpy `argmax` tie-breaking). -/
def np_argmax : List ℚ → ℕ
  | [] => 0
  | x :: xs => argmaxAux xs 1 0 x

def accuracy_classification (output : List (List ℚ)) (target : List ℤ) :
    Except String ℚ :=
  let num_batch := output.length
  if num_batch ≠ target.length then .error "ValueError"
  else
    let pred := output.map np_argmax
    let true_count := (pred.zip target).countP fun p => (p.1 : ℤ) == p.2
    .ok ((true_count : ℚ) / (num_batch : ℚ))

/-! ## `get_pose_vectors` (transaction_h.py, lines 40-79)

`preds` holds the 17 predicted COCO joint positions per batch element and
`maxvals` their confidences.  The double loop enumerates the unordered pairs
of the 13 limb joints `[0, 5, 6, ..., 16]` in order, increments `idx`, and —
when the confidence test passes and the positions differ — stores the
unit-normalised difference `(preds[i] - preds[j]) / ‖preds[i] - preds[j]‖` in
`vectors[batch][idx]`, leaving the zero vector otherwise.  Note the source
tests `maxvals[batch][n]` where `n` is the *enumeration position* of the
first joint in `joints_of_limbs` (0..11), not the joint index `i` itself,
while the second joint is tested at its joint index `j`.  Real positions and
confidences are modelled over `ℝ` (`np.linalg.norm` needs a square root). -/

noncomputable def npNorm2 (v : ℝ × ℝ) : ℝ := Real.sqrt (v.1 ^ 2 + v.2 ^ 2)

def joints_of_limbs : List ℕ := [0, 5, 6, 7, 8, 9, 10, 11, 12, 13, 14, 15, 16]

/-- The triples `(n, i, j)` visited by the double loop, in `idx` order:
`n, i` from `enumerate(joints_of_limbs[:-1])` and `j` from
`joints_of_limbs[(n + 1):]`. -/
def limbPairs : List (ℕ × ℕ × ℕ) :=
  (joints_of_limbs.dropLast.enum).flatMap fun ni =>
    (joints_of_limbs.drop (ni.1 + 1)).map fun j => (ni.1, ni.2, j)

/-- The vector the source stores for the pair at loop position `(n, i, j)`:
the gate is `maxvals[batch][n] >= 0.4 and maxvals[batch][j] >= 0.4`,
exactly as written in the source (first joint gated at list position `n`). -/
noncomputable def limbVectorEntry (preds : ℕ → ℝ × ℝ) (maxvals : ℕ → ℝ)
    (n i j : ℕ) : ℝ × ℝ :=
  if 0.4 ≤ maxvals n ∧ 0.4 ≤ maxvals j then
    if npNorm2 (preds i - preds j) ≠ 0 then
      ((preds i - preds j).1 / npNorm2 (preds i - preds j),
       (preds i - preds j).2 / npNorm2 (preds i - preds j))
    else 0
  else 0

/-- `vectors[batch][idx]` as computed by `get_pose_vectors`. -/
noncomputable def get_pose_vectors_entry (preds : ℕ → ℕ → ℝ × ℝ)
    (maxvals : ℕ → ℕ → ℝ) (batch idx : ℕ) : ℝ × ℝ :=
  match limbPairs.get? idx with
  | some nij => limbVectorEntry (preds batch) (maxvals batch) nij.1 nij.2.1 nij.2.2
  | none => 0

/-- Modelled from the claim (C1) for comparison: the limb vector for the pair
of joints `(i, j)` is gated on the confidences of those two joints
themselves, `maxvals[batch][i] >= 0.4 and maxvals[batch][j] >= 0.4`. -/
noncomputable def limbVectorEntryClaim (preds : ℕ → ℝ × ℝ) (maxvals : ℕ → ℝ)
    (i j : ℕ) : ℝ × ℝ :=
  if 0.4 ≤ maxvals i ∧ 0.4 ≤ maxvals j then
    if npNorm2 (preds i - preds j) ≠ 0 then
      ((preds i - preds j).1 / npNorm2 (preds i - preds j),
       (preds i - preds j).2 / npNorm2 (preds i - preds j))
    else 0
  else 0

/-- Failing input for C1: joint 5 sits at `(1, 0)`, every other joint at the
origin; every joint has confidence 1 except joint 1 (the left eye, not a limb
joint), whose confidence is 0. -/
noncomputable def exPreds : ℕ → ℕ → ℝ × ℝ :=
  fun _ j => if j = 5 then (1, 0) else (0, 0)

/-- Confidences for the failing input of C1. -/
noncomputable def exMaxvals : ℕ → ℕ → ℝ := fun _ j => if j = 1 then 0 else 1

/-! ## `HighResolutionModule._make_fuse_layers` (transaction_h.py, lines 379-442)

The fuse layers are a grid indexed by output branch `i` (rows, `num_branches`
of them when `multi_scale_output`, else 1) and input branch `j`.  For
`j > i` the entry is a 1x1 conv + batchnorm + `nn.Upsample(scale_factor =
2 ** (j - i))`; for `j == i` it is `None` (identity in the fused sum); for
`j < i` it is a chain of `i - j` stride-2 3x3 convolutions (each followed by
batchnorm, and by ReLU except the last, whose out-channels switch to
`num_inchannels[i]`).  When `fusion=False` every row except row 0 is
overwritten with `None`.  Only the structure (channels, kernel, stride,
scale) is modelled; batchnorm carries no shape content. -/

def convOutDim (size kernel stride padding : ℕ) : ℕ :=
  (size + 2 * padding - kernel) / stride + 1

structure DownConv where
  inC : ℕ
  outC : ℕ
  kernel : ℕ
  stride : ℕ
  withRelu : Bool
deriving DecidableEq

inductive FuseEntry
  | upsample (inC outC scale : ℕ)
  | identity
  | downsample (convs : List DownConv)
  | absent
deriving DecidableEq

def downsampleConvs (num_inchannels : List ℕ) (i j : ℕ) : List DownConv :=
  (List.range (i - j)).map fun k =>
    if k = i - j - 1 then
      ⟨num_inchannels.getD j 0, num_inchannels.getD i 0, 3, 2, false⟩
    else
      ⟨num_inchannels.getD j 0, num_inchannels.getD j 0, 3, 2, true⟩

def fuseEntry (num_inchannels : List ℕ) (i j : ℕ) : FuseEntry :=
  if j > i then
    .upsample (num_inchannels.getD j 0) (num_inchannels.getD i 0) (2 ^ (j - i))
  else if j = i then .identity
  else .downsample (downsampleConvs num_inchannels i j)

/-- The grid before the `fusion=False` nulling loop. -/
def fuseRowsRaw (num_branches : ℕ) (multi_scale_output : Bool)
    (num_inchannels : List ℕ) : List (List FuseEntry) :=
  (List.range (if multi_scale_output then num_branches else 1)).map fun i =>
    (List.range num_branches).map fun j => fuseEntry num_inchannels i j

def make_fuse_layers (num_branches : ℕ) (multi_scale_output fusion : Bool)
    (num_inchannels : List ℕ) : Option (List (List FuseEntry)) :=
  if num_branches = 1 then none
  else
    let rows := fuseRowsRaw num_branches multi_scale_output num_inchannels
    some (if fusion then rows
          else (List.range rows.length).map fun i =>
            if i = 0 then rows.getD i []
            else (rows.getD i []).map fun _ => FuseEntry.absent)

/-- Concrete fuse grid for the C6 witness (3 branches, as in stage 3 of the
w32 configuration). -/
def exFuseRows : List (List FuseEntry) :=
  (make_fuse_layers 3 true true [32, 64, 128]).getD []

/-! ## Shape semantics of the pose forward pass (C4)

Tensors are tracked as `(batch, channels, height, width)` shapes.  A 2d
convolution with `out_channels = outC`, square kernel, stride and padding
maps `h` to `(h + 2*padding - kernel) / stride + 1` (floor division, as in
PyTorch); batchnorm, ReLU, dropout and the transformer encoder preserve
shapes, and `y.permute(1, 2, 0).view(bs, c, h, w)` restores the exact shape
captured before `x.flatten(2).permute(2, 0, 1)` — so the encoder detour is
shape-neutral and is not re-modelled here (its data flow is the subject of
C5/C8).

The fusion adds `y = y + fuse_layers[i][j](x[j])` in
`HighResolutionModule.forward` are *partial*: when the resampled summand's
shape disagrees with `y`'s (e.g. an input height of 12 leaves branch 0 at
height 3 in stage 2 while the upsampled branch 1 arrives at height 4),
torch raises a size-mismatch `RuntimeError` and the forward pass produces
no output.  `addShapes` therefore requires exact shape agreement and the
whole pipeline returns an `Option`.  (Strictly, torch would additionally
broadcast a summand dimension of size 1; the model conservatively treats
any disagreement as a failure, so it never reports a success — and the
theorems never assert an output shape — on a run the program does not
complete with exactly these shapes.) -/

inductive BlockType
  | basic
  | bottleneck
deriving DecidableEq

/-- `BasicBlock.expansion = 1`, `Bottleneck.expansion = 4`. -/
def BlockType.expansion : BlockType → ℕ
  | .basic => 1
  | .bottleneck => 4

structure Shape4 where
  b : ℕ
  c : ℕ
  h : ℕ
  w : ℕ
deriving DecidableEq

def conv2dShape (outC kernel stride padding : ℕ) (s : Shape4) : Shape4 :=
  ⟨s.b, outC, convOutDim s.h kernel stride padding, convOutDim s.w kernel stride padding⟩

/-- Shape action of one residual block.  `BasicBlock`: conv3x3(stride) then
conv3x3(1).  `Bottleneck`: conv1x1, conv3x3(stride), conv1x1 to
`planes * 4`.  The residual addition requires (and keeps) the main-path
shape. -/
def blockShape : BlockType → ℕ → ℕ → Shape4 → Shape4
  | .basic, planes, stride, s =>
      conv2dShape planes 3 1 1 (conv2dShape planes 3 stride 1 s)
  | .bottleneck, planes, stride, s =>
      conv2dShape (planes * 4) 1 1 0
        (conv2dShape planes 3 stride 1 (conv2dShape planes 1 1 0 s))

/-- `_make_layer(block, planes, blocks)` with default stride 1: `blocks`
stride-1 blocks in sequence. -/
def makeLayerShape (bt : BlockType) (planes blocks : ℕ) (s : Shape4) : Shape4 :=
  Nat.iterate (blockShape bt planes 1) blocks s

/-- One stage entry of the `EXTRA` configuration (`STAGE2` / `STAGE3`). -/
structure StageCfg where
  num_modules : ℕ
  num_branches : ℕ
  num_blocks : List ℕ
  num_channels : List ℕ
  block : BlockType
deriving DecidableEq

/-- `[num_channels[i] * block.expansion for i in range(len(num_channels))]`
as computed in `TransActionH.__init__` before each stage. -/
def expandedChannels (st : StageCfg) : List ℕ :=
  st.num_channels.map fun c => c * st.block.expansion

/-- `_make_one_branch`: `num_blocks[i]` stride-1 blocks of
`num_channels[i]` planes. -/
def branchShape (st : StageCfg) (i : ℕ) (s : Shape4) : Shape4 :=
  Nat.iterate (blockShape st.block (st.num_channels.getD i 0) 1)
    (st.num_blocks.getD i 0) s

/-- Elementwise tensor addition: defined only when the shapes agree (a torch
size-mismatch `RuntimeError` otherwise; see the section comment on the
size-1 broadcast caveat). -/
def addShapes (a b : Shape4) : Option Shape4 := if a = b then some a else none

/-- `nn.Upsample(scale_factor=scale)`. -/
def upsampleShape (scale : ℕ) (s : Shape4) : Shape4 := ⟨s.b, s.c, s.h * scale, s.w * scale⟩

/-- Shape action of `fuse_layers[i][j]` on the branch-`j` output (`j > i`:
1x1 conv to `num_inchannels[i]` then `Upsample(2 ** (j - i))`; `j = i`:
no layer; `j < i`: `i - j` stride-2 3x3 convs, the last one switching to
`num_inchannels[i]` channels — cf. C6). -/
def fuseEntryShape (nin : List ℕ) (i j : ℕ) (s : Shape4) : Shape4 :=
  if j > i then upsampleShape (2 ^ (j - i)) (conv2dShape (nin.getD i 0) 1 1 0 s)
  else if j = i then s
  else
    (List.range (i - j)).foldl
      (fun t k =>
        conv2dShape (if k = i - j - 1 then nin.getD i 0 else nin.getD j 0) 3 2 1 t)
      s

/-- Fused row `i` of `HighResolutionModule.forward`:
`y = x[0] if i == 0 else fuse_layers[i][0](x[0])`, then for
`j in range(1, num_branches)` add `x[j]` (when `i == j`) or
`fuse_layers[i][j](x[j])`; each addition requires shape agreement. -/
def fuseRowShape (nin : List ℕ) (num_branches i : ℕ) (xs : List Shape4) : Option Shape4 :=
  (List.range' 1 (num_branches - 1)).foldlM
    (fun y j => addShapes y
      (if i = j then xs.getD j ⟨0, 0, 0, 0⟩ else fuseEntryShape nin i j (xs.getD j ⟨0, 0, 0, 0⟩)))
    (if i = 0 then xs.getD 0 ⟨0, 0, 0, 0⟩ else fuseEntryShape nin i 0 (xs.getD 0 ⟨0, 0, 0, 0⟩))

/-- Collect per-row results, failing if any row failed. -/
def collectRows : List (Option Shape4) → Option (List Shape4)
  | [] => some []
  | o :: rest => do
    let s ← o
    let r ← collectRows rest
    some (s :: r)

/-- `x[i] = self.branches[i](x[i])`: every branch runs its blocks. -/
def branchOutputs (st : StageCfg) (xs : List Shape4) : List Shape4 :=
  (List.range st.num_branches).map fun i => branchShape st i (xs.getD i ⟨0, 0, 0, 0⟩)

/-- Shape action of one `HighResolutionModule` (with `multi_scale_output =
True`, as both stages pass): a single branch short-circuits to
`[branches[0](x[0])]`; otherwise the branches run and, with `fusion`, every
row is a fused sum, while without it only row 0 is fused and rows `i ≥ 1`
pass `x[i]` through.  A failed fused add fails the module. -/
def moduleShapes (st : StageCfg) (fusion : Bool) (xs : List Shape4) : Option (List Shape4) :=
  if st.num_branches = 1 then some [branchShape st 0 (xs.getD 0 ⟨0, 0, 0, 0⟩)]
  else if fusion then
    collectRows ((List.range st.num_branches).map fun i =>
      fuseRowShape (expandedChannels st) st.num_branches i (branchOutputs st xs))
  else
    collectRows ((List.range st.num_branches).map fun i =>
      if i = 0 then fuseRowShape (expandedChannels st) st.num_branches 0 (branchOutputs st xs)
      else some ((branchOutputs st xs).getD i ⟨0, 0, 0, 0⟩))

/-- `_make_stage`: `num_modules` modules in sequence; `reset_fusion` is
`False` only for the last module when the stage's `fusion` flag is off. -/
def stageShapes (st : StageCfg) (fusion : Bool) (xs : List Shape4) : Option (List Shape4) :=
  (List.range st.num_modules).foldlM
    (fun ys i =>
      moduleShapes st (if fusion = false ∧ i = st.num_modules - 1 then false else true) ys)
    xs

/-- `_make_transition_layer` branch `i`: for `i < len(pre)` a 3x3 stride-1
conv iff the channel counts differ (else `None`, identity); for new branches
a chain of `i + 1 - len(pre)` stride-2 3x3 convs whose last one switches to
`cur[i]` channels (all fed from the previous stage's last branch). -/
def transitionBranchShape (pre cur : List ℕ) (i : ℕ) (s : Shape4) : Shape4 :=
  if i < pre.length then
    if cur.getD i 0 ≠ pre.getD i 0 then conv2dShape (cur.getD i 0) 3 1 1 s else s
  else
    (List.range (i + 1 - pre.length)).foldl
      (fun t j =>
        conv2dShape
          (if j = i - pre.length then cur.getD i 0 else pre.getD (pre.length - 1) 0)
          3 2 1 t)
      s

/-- The configuration fields of `TransActionH` used by the pose path. -/
structure ModelCfg where
  num_joints : ℕ
  final_conv_kernel : ℕ
  d_model : ℕ
  stage2 : StageCfg
  stage3 : StageCfg
deriving DecidableEq

/-- Stem: conv1 (3x3, stride 2, pad 1, 64 ch), bn1, relu, conv2 (same), bn2,
relu, then `layer1 = _make_layer(Bottleneck, 64, 4)`. -/
def stemShape (s : Shape4) : Shape4 :=
  makeLayerShape .bottleneck 64 4 (conv2dShape 64 3 2 1 (conv2dShape 64 3 2 1 s))

/-- `transition1` inputs as built in `forward`: every branch is fed from the
single stem output `x` (`transition1` goes from `[256]` to stage 2's expanded
channels). -/
def stage2Inputs (cfg : ModelCfg) (x : Shape4) : List Shape4 :=
  (List.range cfg.stage2.num_branches).map fun i =>
    transitionBranchShape [256] (expandedChannels cfg.stage2) i x

/-- `transition2` inputs as built in `forward`: branch `i` is `y_list[i]`
when `transition2[i]` is `None` (channel counts agree for `i` among the
previous branches), otherwise `transition2[i]` applied to `y_list[-1]`. -/
def stage3Inputs (cfg : ModelCfg) (y2 : List Shape4) : List Shape4 :=
  (List.range cfg.stage3.num_branches).map fun i =>
    if i < (expandedChannels cfg.stage2).length ∧
        (expandedChannels cfg.stage3).getD i 0 = (expandedChannels cfg.stage2).getD i 0
    then y2.getD i ⟨0, 0, 0, 0⟩
    else transitionBranchShape (expandedChannels cfg.stage2) (expandedChannels cfg.stage3)
      i (y2.getD (y2.length - 1) ⟨0, 0, 0, 0⟩)

/-- Shape of the first output of `TransActionH.forward` (the pose heatmap
`y`), or `none` when the forward raises a size mismatch in a fusion add:
stem, transition1, stage2 (built with `fusion=True`), transition2, stage3
(built with `fusion=False`), `reduce` (1x1 conv of branch 0 to `d_model`),
the shape-neutral encoder detour (`flatten/permute`, `global_encoder`,
`permute/view(bs, c, h, w)`), and `final_layer` (kernel
`FINAL_CONV_KERNEL`, stride 1, padding 1 iff the kernel is 3, out-channels
`NUM_JOINTS`). -/
def forwardPoseShape (cfg : ModelCfg) (s : Shape4) : Option Shape4 := do
  let y2 ← stageShapes cfg.stage2 true (stage2Inputs cfg (stemShape s))
  let y3 ← stageShapes cfg.stage3 false (stage3Inputs cfg y2)
  some (conv2dShape cfg.num_joints cfg.final_conv_kernel 1
    (if cfg.final_conv_kernel = 3 then 1 else 0)
    (conv2dShape cfg.d_model 1 1 0 (y3.getD 0 ⟨0, 0, 0, 0⟩)))

/-- Concrete configuration for the C4 witness (the w32 two/three-branch
layout). -/
def exCfg : ModelCfg :=
  ⟨17, 1, 96,
   ⟨1, 2, [4, 4], [32, 64], .basic⟩,
   ⟨4, 3, [4, 4, 4], [32, 64, 128], .basic⟩⟩

/-! ## Positional embedding shapes (C5)

`_make_position_embedding` / `_make_sine_position_embedding`
(transaction_h.py, lines 628-672).  Tensor shapes are lists of dimension
sizes; `torch.stack`, `torch.cat`, slicing with step 2, `flatten(d)`,
`permute` and numpy-style broadcasting act on shapes as below.  `cumsum`,
`sin`, `cos` and scalar arithmetic preserve shapes. -/

abbrev TShape := List ℕ

/-- Broadcasting of a single dimension pair: equal sizes, or one of them 1. -/
def combineDim (a b : ℕ) : Option ℕ :=
  if a = 1 then some b else if b = 1 then some a
  else if a = b then some a else none

/-- Combine all aligned dimension pairs, failing if any pair fails. -/
def combineAll : List (ℕ × ℕ) → Option TShape
  | [] => some []
  | p :: rest => do
    let d ← combineDim p.1 p.2
    let r ← combineAll rest
    some (d :: r)

/-- Numpy/torch broadcasting: right-align, pad with 1s, combine pairwise. -/
def broadcastShapes (a b : TShape) : Option TShape :=
  let n := max a.length b.length
  let a2 := List.replicate (n - a.length) 1 ++ a
  let b2 := List.replicate (n - b.length) 1 ++ b
  combineAll (a2.zip b2)

/-- `Tensor.flatten(d)`: collapse dimensions `d..` into their product. -/
def flattenFrom (d : ℕ) (s : TShape) : TShape := s.take d ++ [(s.drop d).prod]

def permuteShape (perm : List ℕ) (s : TShape) : TShape := perm.map fun i => s.getD i 0

/-- Shape of `x[..., 0::2]` along dimension `dim`. -/
def sliceHalfEven (dim : ℕ) (s : TShape) : TShape := s.set dim ((s.getD dim 0 + 1) / 2)

/-- Shape of `x[..., 1::2]` along dimension `dim`. -/
def sliceHalfOdd (dim : ℕ) (s : TShape) : TShape := s.set dim (s.getD dim 0 / 2)

/-- `torch.stack((u, v), dim)`: requires equal shapes, inserts a new axis of
size 2. -/
def stackPairShape (dim : ℕ) (a b : TShape) : Option TShape :=
  if a = b then some (a.take dim ++ 2 :: a.drop dim) else none

/-- `torch.cat((u, v), dim)`: requires equal shapes off `dim`, adds sizes at
`dim`. -/
def catPairShape (dim : ℕ) (a b : TShape) : Option TShape :=
  if a.length = b.length ∧ ∀ k < a.length, k ≠ dim → a.getD k 0 = b.getD k 0 then
    some (a.set dim (a.getD dim 0 + b.getD dim 0))
  else none

/-- `cumsum` preserves the shape. -/
def cumsumShape (_dim : ℕ) (s : TShape) : TShape := s

/-- Shape evaluation of `_make_sine_position_embedding(d_model)` with
`h = pe_h`, `w = pe_w` (failure = a runtime shape error in torch). -/
def make_sine_position_embedding_shape (pe_h pe_w d_model : ℕ) : Option TShape :=
  let area : TShape := [1, pe_h, pe_w]
  let y_embed := cumsumShape 1 area
  let x_embed := cumsumShape 2 area
  let one_direction_feats := d_model / 2
  let dim_t : TShape := [one_direction_feats]
  do
    let y2 ← broadcastShapes y_embed (y_embed.set 1 1)
    let x2 ← broadcastShapes x_embed (x_embed.set 2 1)
    let pos_x ← broadcastShapes (x2 ++ [1]) dim_t
    let pos_y ← broadcastShapes (y2 ++ [1]) dim_t
    let px ← stackPairShape 4 (sliceHalfEven 3 pos_x) (sliceHalfOdd 3 pos_x)
    let px2 := flattenFrom 3 px
    let py ← stackPairShape 4 (sliceHalfEven 3 pos_y) (sliceHalfOdd 3 pos_y)
    let py2 := flattenFrom 3 py
    let pos ← catPairShape 3 py2 px2
    let pos2 := permuteShape [0, 3, 1, 2] pos
    let pos3 := flattenFrom 2 pos2
    some (permuteShape [2, 0, 1] pos3)

inductive PEType
  | nonePE
  | learnable
  | sine
deriving DecidableEq

/-- `_make_position_embedding(w, h, d_model, pe_type)`: `pe_h = h // 4`,
`pe_w = w // 4`; learnable = `torch.randn(pe_h * pe_w, 1, d_model)`, sine =
`_make_sine_position_embedding(d_model)`. -/
def make_position_embedding_shape (w h d_model : ℕ) : PEType → Option TShape
  | .nonePE => none
  | .learnable => some [(h / 4) * (w / 4), 1, d_model]
  | .sine => make_sine_position_embedding_shape (h / 4) (w / 4) d_model

/-! ## `TransformerEncoder` / `TransformerEncoderLayer` (C5, C8)

(transaction_h.py, lines 155-288).  Tensors are abstract (`T` with `+`);
learned sublayers are function parameters.  Each layer records the
`(query, key, value)` triple passed to `self_attn`. -/

structure AttnCall (T : Type) where
  query : T
  key : T
  value : T

def with_pos_embed {T : Type} [Add T] (tensor : T) (pos : Option T) : T :=
  match pos with
  | none => tensor
  | some p => tensor + p

structure EncoderLayerParams (T : Type) where
  self_attn : T → T → T → T
  linear1 : T → T
  dropout : T → T
  linear2 : T → T
  norm1 : T → T
  norm2 : T → T
  dropout1 : T → T
  dropout2 : T → T
  activation : T → T
  normalize_before : Bool

/-- `forward_post`: `q = k = with_pos_embed(src, pos)`, attention on
`(q, k, src)`, residual + norm1, feed-forward, residual + norm2. -/
def forward_post {T : Type} [Add T] (L : EncoderLayerParams T) (src : T)
    (pos : Option T) : T × AttnCall T :=
  let q := with_pos_embed src pos
  let k := q
  let src2 := L.self_attn q k src
  let srcA := L.norm1 (src + L.dropout1 src2)
  let src2B := L.linear2 (L.dropout (L.activation (L.linear1 srcA)))
  (L.norm2 (srcA + L.dropout2 src2B), ⟨q, k, src⟩)

/-- `forward_pre`: pre-norm variant (`q = k = with_pos_embed(norm1(src),
pos)`, value is the unnormalised `src`). -/
def forward_pre {T : Type} [Add T] (L : EncoderLayerParams T) (src : T)
    (pos : Option T) : T × AttnCall T :=
  let src2 := L.norm1 src
  let q := with_pos_embed src2 pos
  let k := q
  let srcAtt := L.self_attn q k src
  let srcA := src + L.dropout1 srcAtt
  let src2B := L.norm2 srcA
  let src2C := L.linear2 (L.dropout (L.activation (L.linear1 src2B)))
  (srcA + L.dropout2 src2C, ⟨q, k, src⟩)

def layer_forward {T : Type} [Add T] (L : EncoderLayerParams T) (src : T)
    (pos : Option T) : T × AttnCall T :=
  if L.normalize_before then forward_pre L src pos else forward_post L src pos

/-- `TransformerEncoder.forward`: thread the features through the layers,
passing `pos` to each one (`pos` is dropped after the first layer only when
`pe_only_at_begin`, which the model's constructors leave `False`). -/
def encoder_forward {T : Type} [Add T] :
    List (EncoderLayerParams T) → Bool → T → Option T → T × List (AttnCall T)
  | [], _, src, _ => (src, [])
  | L :: rest, peb, src, pos =>
    let step := layer_forward L src pos
    let pos2 := if peb then none else pos
    let next := encoder_forward rest peb step.1 pos2
    (next.1, step.2 :: next.2)

def transformer_encoder_forward {T : Type} [Add T]
    (layers : List (EncoderLayerParams T)) (norm : Option (T → T))
    (pe_only_at_begin : Bool) (src : T) (pos : Option T) : T × List (AttnCall T) :=
  let r := encoder_forward layers pe_only_at_begin src pos
  (match norm with
   | some f => f r.1
   | none => r.1, r.2)

/-- Concrete post-norm layer over `ℤ` for the C5 witness. -/
def exLayer : EncoderLayerParams ℤ :=
  ⟨fun a _ _ => a, id, id, id, id, id, id, id, id, false⟩

/-! ## `TransActionH.forward` data flow (C7, C8)

(transaction_h.py, lines 781-846).  All learned modules are function
parameters over an abstract tensor type `T`; the loss-weight coefficients
`a1, a2, a3` (`cfg.LOSS.A1..A3`, lines 495-497) are carried as rationals.
`forwardT` mirrors the method line by line and records the intermediate
values; the method returns `(y, concat)` — the line
`r = self.a1 * r + self.a2 * concat + self.a3 * q` is commented out in the
source. -/

structure ForwardParams (T : Type) where
  conv1 : T → T
  bn1 : T → T
  relu : T → T
  conv2 : T → T
  bn2 : T → T
  layer1 : T → T
  nb2 : ℕ
  transition1 : List (Option (T → T))
  stage2 : List T → List T
  nb3 : ℕ
  transition2 : List (Option (T → T))
  stage3 : List T → List T
  reduce : T → T
  flatten2permute : T → T
  pos_embedding : Option T
  global_encoder : T → Option T → T
  global_encoder_action : T → Option T → T
  permuteView : T → T
  final_layer : T → T
  get_max_preds : T → T × T
  get_pose_vectors : T → T → T
  action_encoder_branch_part1 : T → T
  flatten1 : T → T
  action_encoder_branch_part2 : T → T
  action_hrnet_features_branch_96 : T → T
  action_hrnet_features_branch_192 : T → T
  cat1 : T → T → T
  action_hrnet_features_branch_concat : T → T
  action_skeleton_branch : T → T
  a1 : ℚ
  a2 : ℚ
  a3 : ℚ

structure ForwardTrace (T : Type) where
  xf : T
  y : T
  skeleton_vecs : T
  r : T
  concat : T
  q : T
  ret : T × T

/-- `TransActionH.forward`, line by line: stem, transitions and stages
(`transition2[i]`, when not `None`, reads `y_list[-1]`), `reduce` of branch
0, `flatten(2).permute(2, 0, 1)` giving the shared encoder input `xf`; pose:
`global_encoder`, `permute/view`, `final_layer`; skeleton:
`get_max_preds`/`get_pose_vectors` on the detached heatmap; action:
`global_encoder_action`, `permute/view`, pooled branch parts, plus the two
HRNet feature branches concatenated into `concat` and the skeleton branch
`q`; the return value is `(y, concat)`. -/
def forwardT {T : Type} (P : ForwardParams T) (x0 : T) : ForwardTrace T :=
  let x1 := P.relu (P.bn2 (P.conv2 (P.relu (P.bn1 (P.conv1 x0)))))
  let x2 := P.layer1 x1
  let x_list := (List.range P.nb2).map fun i =>
    match P.transition1.getD i none with
    | some f => f x2
    | none => x2
  let y_list := P.stage2 x_list
  let x_list2 := (List.range P.nb3).map fun i =>
    match P.transition2.getD i none with
    | some f => f (y_list.getD (y_list.length - 1) x2)
    | none => y_list.getD i x2
  let y_list2 := P.stage3 x_list2
  let xr := P.reduce (y_list2.getD 0 x2)
  let xf := P.flatten2permute xr
  let y1 := P.global_encoder xf P.pos_embedding
  let y2 := P.permuteView y1
  let y := P.final_layer y2
  let pm := P.get_max_preds y
  let skeleton_vecs := P.get_pose_vectors pm.1 pm.2
  let r1 := P.global_encoder_action xf P.pos_embedding
  let r2 := P.permuteView r1
  let r3 := P.action_encoder_branch_part1 r2
  let r4 := P.flatten1 r3
  let r := P.action_encoder_branch_part2 r4
  let z := P.flatten1 (P.action_hrnet_features_branch_96 (y_list2.getD 1 x2))
  let t := P.flatten1 (P.action_hrnet_features_branch_192 (y_list2.getD 2 x2))
  let concat0 := P.cat1 z t
  let concat := P.action_hrnet_features_branch_concat concat0
  let q := P.action_skeleton_branch skeleton_vecs
  ⟨xf, y, skeleton_vecs, r, concat, q, (y, concat)⟩

end TransPose

namespace TransPose

/-! ## Theorems for C2, C3, C9, C10 -/

/-- Claim C2: constructing a `HighResolutionModule` raises a `ValueError`
whenever `num_branches` differs from the length of `num_blocks`, of
`num_channels`, or of `num_inchannels`, and passes this check whenever all
three lengths equal `num_branches`. -/
theorem C2_check_branches (nb : ℕ) (num_blocks num_inchannels num_channels : List ℕ) :
    (check_branches nb num_blocks num_inchannels num_channels = .ok () ↔
      num_blocks.length = nb ∧ num_channels.length = nb ∧ num_inchannels.length = nb) ∧
    ((num_blocks.length ≠ nb ∨ num_channels.length ≠ nb ∨ num_inchannels.length ≠ nb) →
      ∃ msg, check_branches nb num_blocks num_inchannels num_channels = .error msg) := by
  unfold check_branches
  constructor
  · split_ifs with h1 h2 h3 <;> simp <;> omega
  · intro h
    split_ifs with h1 h2 h3
    · exact ⟨_, rfl⟩
    · exact ⟨_, rfl⟩
    · exact ⟨_, rfl⟩
    · omega

theorem C2_witness :
    check_branches 2 [4, 4] [32, 64] [32, 64] = .ok () ∧
      ∃ msg, check_branches 2 [4] [32, 64] [32, 64] = .error msg :=
  ⟨(C2_check_branches 2 [4, 4] [32, 64] [32, 64]).1.mpr (by decide),
   (C2_check_branches 2 [4] [32, 64] [32, 64]).2 (by decide)⟩

/-- Claim C3: `init_weights` loads without error when the pretrained path names
an existing file, raises `ValueError` when the path is non-empty but names no
existing file, and raises nothing when the path is empty. -/
theorem C3_init_weights (isfile : String → Bool) (p : String) :
    (isfile p = true → init_weights isfile p = .loaded) ∧
    (isfile p = false → p ≠ "" →
      init_weights isfile p = .raisedValueError (p ++ " is not exist!")) ∧
    (p = "" → ∀ msg, init_weights isfile p ≠ .raisedValueError msg) := by
  refine ⟨fun h => by simp [init_weights, h], fun h hp => by simp [init_weights, h, hp], ?_⟩
  intro hp msg
  subst hp
  by_cases h : isfile "" = true <;> simp [init_weights, h]

theorem C3_witness :
    init_weights exIsFile "weights.pth" = .loaded ∧
    init_weights exIsFile "missing.pth" = .raisedValueError ("missing.pth" ++ " is not exist!") ∧
    (∀ msg, init_weights exIsFile "" ≠ .raisedValueError msg) :=
  ⟨(C3_init_weights exIsFile "weights.pth").1 (by decide),
   (C3_init_weights exIsFile "missing.pth").2.1 (by decide) (by decide),
   (C3_init_weights exIsFile "").2.2 rfl⟩

/-- The `avg` field always equals the guarded quotient `sum / count` (0 when
`count = 0`); `update` re-establishes it and `reset` satisfies it. -/
theorem AverageMeter.avg_invariant (updates : List (ℚ × ℕ)) :
    (AverageMeter.run updates).avg =
      if (AverageMeter.run updates).count ≠ 0 then
        (AverageMeter.run updates).sum / ((AverageMeter.run updates).count : ℚ)
      else 0 := by
  unfold AverageMeter.run
  induction updates using List.reverseRecOn with
  | nil => simp [AverageMeter.reset]
  | append_singleton us u _ => simp [AverageMeter.update]

/-- Accumulator-generalised description of `count`, `sum` and `val` after a
fold of `update` calls. -/
theorem AverageMeter.run_from (s : AverageMeter) (us : List (ℚ × ℕ)) :
    (us.foldl (fun a u => a.update u.1 u.2) s).count = s.count + (us.map Prod.snd).sum ∧
    (us.foldl (fun a u => a.update u.1 u.2) s).sum =
      s.sum + (us.map fun u => u.1 * (u.2 : ℚ)).sum ∧
    (us.foldl (fun a u => a.update u.1 u.2) s).val =
      ((us.getLast?).map Prod.fst).getD s.val := by
  induction us generalizing s with
  | nil => simp
  | cons u rest ih =>
    obtain ⟨hc, hs, hv⟩ := ih (s.update u.1 u.2)
    refine ⟨?_, ?_, ?_⟩
    · rw [List.foldl_cons, hc]
      simp only [AverageMeter.update, List.map_cons, List.sum_cons]
      omega
    · rw [List.foldl_cons, hs]
      simp only [AverageMeter.update, List.map_cons, List.sum_cons]
      ring
    · rw [List.foldl_cons, hv]
      cases rest with
      | nil => simp [AverageMeter.update]
      | cons v t =>
        have hsome : (v :: t).getLast?.isSome := by
          rw [List.getLast?_isSome]
          exact List.cons_ne_nil v t
        obtain ⟨x, hx⟩ := Option.isSome_iff_exists.mp hsome
        simp [hx]

/-- Claim C9: after `reset` followed by any sequence of `update(val_k, n_k)`
calls, `count` is the sum of the `n_k`, `sum` is the sum of the `val_k * n_k`,
`val` is the most recent `val_k` (0 if none), and `avg` is `sum / count` when
`count` is non-zero and 0 when it is zero — the division is always guarded. -/
theorem C9_average_meter (updates : List (ℚ × ℕ)) :
    (AverageMeter.run updates).count = (updates.map Prod.snd).sum ∧
    (AverageMeter.run updates).sum = (updates.map fun u => u.1 * (u.2 : ℚ)).sum ∧
    (AverageMeter.run updates).val = ((updates.getLast?).map Prod.fst).getD 0 ∧
    (AverageMeter.run updates).avg =
      if (AverageMeter.run updates).count ≠ 0 then
        (AverageMeter.run updates).sum / ((AverageMeter.run updates).count : ℚ)
      else 0 := by
  obtain ⟨hc, hs, hv⟩ := AverageMeter.run_from AverageMeter.reset updates
  exact ⟨by simpa [AverageMeter.run, AverageMeter.reset] using hc,
         by simpa [AverageMeter.run, AverageMeter.reset] using hs,
         by simpa [AverageMeter.run, AverageMeter.reset] using hv,
         AverageMeter.avg_invariant updates⟩

/-- Claim C10: `accuracy_classification` raises `ValueError` iff the batch
sizes differ; otherwise (on a non-empty batch, rows non-empty so that numpy's
`argmax` is defined) it returns the fraction of rows whose argmax equals the
target label, a rational in `[0, 1]`. -/
theorem C10_accuracy (output : List (List ℚ)) (target : List ℤ)
    (_hrows : ∀ row ∈ output, row ≠ []) :
    ((∃ msg, accuracy_classification output target = .error msg) ↔
      output.length ≠ target.length) ∧
    (output.length = target.length → 0 < output.length →
      accuracy_classification output target =
        .ok ((((output.map np_argmax).zip target).countP
                (fun p => (p.1 : ℤ) == p.2) : ℚ) / (output.length : ℚ)) ∧
      ∀ v, accuracy_classification output target = .ok v → 0 ≤ v ∧ v ≤ 1) := by
  constructor
  · simp only [accuracy_classification]
    split_ifs with h
    · exact ⟨fun _ => h, fun _ => ⟨_, rfl⟩⟩
    · simp [h]
  · intro hlen hpos
    have hval : accuracy_classification output target =
        .ok ((((output.map np_argmax).zip target).countP
              (fun p => (p.1 : ℤ) == p.2) : ℚ) / (output.length : ℚ)) := by
      simp only [accuracy_classification]
      rw [if_neg (by omega)]
    refine ⟨hval, fun v hv => ?_⟩
    rw [hval] at hv
    have hveq := Except.ok.inj hv
    have hcount : ((output.map np_argmax).zip target).countP
        (fun p => (p.1 : ℤ) == p.2) ≤ output.length := by
      calc ((output.map np_argmax).zip target).countP (fun p => (p.1 : ℤ) == p.2)
          ≤ ((output.map np_argmax).zip target).length := List.countP_le_length _
        _ ≤ (output.map np_argmax).length := by
            rw [List.length_zip]; exact min_le_left _ _
        _ = output.length := List.length_map _ _
    have hb : (0 : ℚ) < (output.length : ℚ) := by exact_mod_cast hpos
    constructor
    · rw [← hveq]
      positivity
    · rw [← hveq]
      rw [div_le_one hb]
      exact_mod_cast hcount

theorem C10_witness :
    ∃ v, accuracy_classification [[1, 3, 2], [5, 0, 0]] [1, 0] = .ok v ∧
      0 ≤ v ∧ v ≤ 1 := by
  have h := C10_accuracy [[1, 3, 2], [5, 0, 0]] [1, 0] (by decide)
  obtain ⟨heq, hb⟩ := h.2 (by decide) (by decide)
  exact ⟨_, heq, hb _ heq⟩

/-- Claim C1 fails on the code: at `idx = 12` the pair is the two shoulders
`(i, j) = (5, 6)` with loop position `n = 1`, both shoulders have confidence
1 ≥ 0.4 and distinct positions, so the claim requires the stored vector to be
the unit-normalised difference `(1, 0)`; but the source gates on
`maxvals[batch][n] = maxvals[batch][1]` (the left eye, confidence 0), so the
code stores the zero vector.  The claim-side gate (`limbVectorEntryClaim`)
indeed produces `(1, 0) ≠ 0` there. -/
theorem C1_code_divergence :
    limbPairs.get? 12 = some (1, 5, 6) ∧
    (0.4 : ℝ) ≤ exMaxvals 0 5 ∧ (0.4 : ℝ) ≤ exMaxvals 0 6 ∧
    exPreds 0 5 - exPreds 0 6 ≠ 0 ∧
    get_pose_vectors_entry exPreds exMaxvals 0 12 = 0 ∧
    limbVectorEntryClaim (exPreds 0) (exMaxvals 0) 5 6 = ((1 : ℝ), (0 : ℝ)) ∧
    ((1 : ℝ), (0 : ℝ)) ≠ (0 : ℝ × ℝ) := by
  have h12 : limbPairs.get? 12 = some (1, 5, 6) := by decide
  have hm1 : exMaxvals 0 1 = 0 := by norm_num [exMaxvals]
  have hm5 : exMaxvals 0 5 = 1 := by norm_num [exMaxvals]
  have hm6 : exMaxvals 0 6 = 1 := by norm_num [exMaxvals]
  have hp5 : exPreds 0 5 = ((1 : ℝ), (0 : ℝ)) := by norm_num [exPreds]
  have hp6 : exPreds 0 6 = ((0 : ℝ), (0 : ℝ)) := by norm_num [exPreds]
  have hd : exPreds 0 5 - exPreds 0 6 = ((1 : ℝ), (0 : ℝ)) := by
    rw [hp5, hp6]
    simp [Prod.ext_iff]
  have hnorm : npNorm2 ((1 : ℝ), (0 : ℝ)) = 1 := by simp [npNorm2]
  refine ⟨h12, ?_, ?_, ?_, ?_, ?_, ?_⟩
  · rw [hm5]; norm_num
  · rw [hm6]; norm_num
  · rw [hd]
    simp [Prod.ext_iff]
  · unfold get_pose_vectors_entry
    rw [h12]
    show limbVectorEntry (exPreds 0) (exMaxvals 0) 1 5 6 = 0
    unfold limbVectorEntry
    rw [if_neg]
    intro hc
    rw [hm1] at hc
    exact absurd hc.1 (by norm_num)
  · unfold limbVectorEntryClaim
    rw [if_pos ⟨by rw [hm5]; norm_num, by rw [hm6]; norm_num⟩, hd, hnorm]
    rw [if_pos (by norm_num)]
    norm_num
  · simp [Prod.ext_iff]

/-! ## Helper lemmas and theorems for C6 -/

/-- Indexing with a default into a mapped `List.range`. -/
theorem getD_map_range {α : Type} (f : ℕ → α) (n i : ℕ) (hi : i < n) (d : α) :
    ((List.range n).map f).getD i d = f i := by
  rw [List.getD_eq_getElem?_getD, List.getElem?_map, List.getElem?_range hi]
  rfl

/-- A stride-2 3x3 padding-1 convolution exactly halves an even spatial
dimension. -/
theorem convOutDim_stride2 (m : ℕ) (hm : 1 ≤ m) : convOutDim (2 * m) 3 2 1 = m := by
  unfold convOutDim
  omega

/-- A chain of `k` stride-2 3x3 convolutions divides a spatial dimension of
the form `2 ^ k * m` exactly by `2 ^ k`. -/
theorem downsample_pow_two (k m : ℕ) (hm : 1 ≤ m) :
    Nat.iterate (fun t => convOutDim t 3 2 1) k (2 ^ k * m) = m := by
  induction k with
  | zero => simp
  | succ k ih =>
    rw [Function.iterate_succ_apply]
    have hstep : convOutDim (2 ^ (k + 1) * m) 3 2 1 = 2 ^ k * m := by
      have harith : 2 ^ (k + 1) * m = 2 * (2 ^ k * m) := by ring
      rw [harith, convOutDim_stride2]
      calc 1 = 1 * 1 := (one_mul 1).symm
        _ ≤ 2 ^ k * m := Nat.mul_le_mul Nat.one_le_two_pow hm
    show Nat.iterate (fun t => convOutDim t 3 2 1) k (convOutDim (2 ^ (k + 1) * m) 3 2 1) = m
    rw [hstep]
    exact ih

/-- The (i, j) entry of the raw fuse grid. -/
theorem fuseRowsRaw_entry (nb : ℕ) (mso : Bool) (nin : List ℕ) (i j : ℕ)
    (hi : i < (if mso then nb else 1)) (hj : j < nb) :
    ((fuseRowsRaw nb mso nin).getD i []).getD j .absent = fuseEntry nin i j := by
  unfold fuseRowsRaw
  rw [getD_map_range _ _ _ hi, getD_map_range _ _ _ hj]

/-- Claim C6: in the fuse layers, for every pair of branches `(i, j)` that is
actually fused (`fusion=True`, or row 0 when `fusion=False`), a
lower-resolution branch `j > i` is upsampled by a scale factor of exactly
`2 ^ (j - i)` before being added to branch `i`, and a higher-resolution
branch `j < i` passes through exactly `i - j` stride-2 (3x3) convolutions —
so a chain applied to a spatial size `2 ^ (i - j) * m` yields exactly `m`:
fused resolutions differ only by power-of-two factors. -/
theorem C6_fuse_structure (num_branches : ℕ) (multi_scale_output fusion : Bool)
    (num_inchannels : List ℕ) (rows : List (List FuseEntry))
    (hrows : make_fuse_layers num_branches multi_scale_output fusion num_inchannels =
      some rows)
    (i j : ℕ) (hi : i < rows.length) (hj : j < num_branches)
    (hlive : fusion = true ∨ i = 0) :
    (i < j → (rows.getD i []).getD j .absent =
      .upsample (num_inchannels.getD j 0) (num_inchannels.getD i 0) (2 ^ (j - i))) ∧
    (j < i → ∃ convs, (rows.getD i []).getD j .absent = .downsample convs ∧
      convs.length = i - j ∧
      (∀ c ∈ convs, c.kernel = 3 ∧ c.stride = 2) ∧
      ∀ m, 1 ≤ m →
        Nat.iterate (fun t => convOutDim t 3 2 1) (i - j) (2 ^ (i - j) * m) = m) := by
  have h1 : num_branches ≠ 1 := by
    intro h
    rw [make_fuse_layers, if_pos h] at hrows
    exact Option.noConfusion hrows
  rw [make_fuse_layers, if_neg h1] at hrows
  simp only [Option.some.injEq] at hrows
  have hraw_len : (fuseRowsRaw num_branches multi_scale_output num_inchannels).length =
      (if multi_scale_output then num_branches else 1) := by
    unfold fuseRowsRaw
    rw [List.length_map, List.length_range]
  have hentry : (rows.getD i []).getD j .absent = fuseEntry num_inchannels i j := by
    by_cases hf : fusion = true
    · rw [hf] at hrows
      simp only [if_pos] at hrows
      subst hrows
      exact fuseRowsRaw_entry _ _ _ _ _ (by rw [← hraw_len]; exact hi) hj
    · rcases hlive with hlive | hi0
      · exact absurd hlive hf
      · subst hi0
        rw [Bool.not_eq_true] at hf
        rw [hf] at hrows
        simp only [Bool.false_eq_true, if_false] at hrows
        subst hrows
        have hi' : 0 < (fuseRowsRaw num_branches multi_scale_output num_inchannels).length := by
          rw [List.length_map, List.length_range] at hi
          exact hi
        rw [getD_map_range _ _ _ hi', if_pos rfl]
        exact fuseRowsRaw_entry _ _ _ _ _ (by rw [← hraw_len]; exact hi') hj
  rw [hentry]
  constructor
  · intro hij
    rw [fuseEntry, if_pos hij]
  · intro hji
    refine ⟨downsampleConvs num_inchannels i j, ?_, ?_, ?_, ?_⟩
    · rw [fuseEntry, if_neg (by omega), if_neg (by omega)]
    · unfold downsampleConvs
      rw [List.length_map, List.length_range]
    · intro c hc
      unfold downsampleConvs at hc
      simp only [List.mem_map, List.mem_range] at hc
      obtain ⟨k, _, hk⟩ := hc
      split at hk <;> rw [← hk]
      · exact ⟨rfl, rfl⟩
      · exact ⟨rfl, rfl⟩
    · intro m hm
      exact downsample_pow_two (i - j) m hm

theorem C6_witness :
    (exFuseRows.getD 0 []).getD 2 .absent = .upsample 128 32 4 ∧
    ∃ convs, (exFuseRows.getD 2 []).getD 0 .absent = .downsample convs ∧
      convs.length = 2 ∧ (∀ c ∈ convs, c.kernel = 3 ∧ c.stride = 2) ∧
      Nat.iterate (fun t => convOutDim t 3 2 1) 2 (4 * 16) = 16 := by
  have h0 := C6_fuse_structure 3 true true [32, 64, 128] exFuseRows rfl 0 2
    (by decide) (by decide) (Or.inl rfl)
  have h2 := C6_fuse_structure 3 true true [32, 64, 128] exFuseRows rfl 2 0
    (by decide) (by decide) (Or.inl rfl)
  obtain ⟨convs, hc1, hc2, hc3, hc4⟩ := h2.2 (by decide)
  exact ⟨h0.1 (by decide), convs, hc1, hc2, hc3, hc4 16 (by decide)⟩

/-! ## Helper lemmas and theorem for C4 -/

/-- A 3x3 stride-1 padding-1 convolution preserves a positive spatial
dimension. -/
theorem convOutDim_k3s1 (n : ℕ) (hn : 1 ≤ n) : convOutDim n 3 1 1 = n := by
  unfold convOutDim
  omega

/-- A 1x1 stride-1 convolution preserves a positive spatial dimension. -/
theorem convOutDim_k1s1 (n : ℕ) (hn : 1 ≤ n) : convOutDim n 1 1 0 = n := by
  unfold convOutDim
  omega

/-- A stride-1 residual block keeps batch and spatial dimensions and sets the
channels to `planes * expansion`. -/
theorem blockShape_spatial (bt : BlockType) (planes : ℕ) (s : Shape4)
    (hh : 1 ≤ s.h) (hw : 1 ≤ s.w) :
    blockShape bt planes 1 s = ⟨s.b, planes * bt.expansion, s.h, s.w⟩ := by
  cases bt with
  | basic =>
    simp only [blockShape, conv2dShape, BlockType.expansion, Shape4.mk.injEq, true_and]
    unfold convOutDim
    omega
  | bottleneck =>
    simp only [blockShape, conv2dShape, BlockType.expansion, Shape4.mk.injEq, true_and]
    unfold convOutDim
    omega

/-- Iterating stride-1 blocks keeps batch and spatial dimensions. -/
theorem iterate_blockShape_spatial (bt : BlockType) (planes n : ℕ) (s : Shape4)
    (hh : 1 ≤ s.h) (hw : 1 ≤ s.w) :
    (Nat.iterate (blockShape bt planes 1) n s).b = s.b ∧
    (Nat.iterate (blockShape bt planes 1) n s).h = s.h ∧
    (Nat.iterate (blockShape bt planes 1) n s).w = s.w := by
  induction n generalizing s with
  | zero => exact ⟨rfl, rfl, rfl⟩
  | succ n ih =>
    rw [Function.iterate_succ_apply, blockShape_spatial bt planes s hh hw]
    exact ih ⟨s.b, planes * bt.expansion, s.h, s.w⟩ hh hw

/-- A chain of shape-checked additions returns the accumulator unchanged
whenever it succeeds. -/
theorem foldlM_addShapes (g : ℕ → Shape4) :
    ∀ (l : List ℕ) (y0 y : Shape4),
      l.foldlM (fun t j => addShapes t (g j)) y0 = some y → y = y0 := by
  intro l
  induction l with
  | nil =>
    intro y0 y h
    rw [List.foldlM_nil] at h
    exact (Option.some.inj h).symm
  | cons j rest ih =>
    intro y0 y h
    rw [List.foldlM_cons] at h
    cases ha : addShapes y0 (g j) with
    | none =>
      rw [ha] at h
      exact Option.noConfusion h
    | some y1 =>
      rw [ha] at h
      have h2 : rest.foldlM (fun t j => addShapes t (g j)) y1 = some y := h
      have h1 : y = y1 := ih y1 y h2
      unfold addShapes at ha
      split at ha
      · rw [h1, (Option.some.inj ha).symm]
      · exact absurd ha (by simp)

/-- A fused row 0 that succeeds has the shape of branch 0's block output. -/
theorem fuseRowShape_zero {nin : List ℕ} {nb : ℕ} {bs : List Shape4} {y : Shape4}
    (h : fuseRowShape nin nb 0 bs = some y) : y = bs.getD 0 ⟨0, 0, 0, 0⟩ := by
  unfold fuseRowShape at h
  rw [if_pos rfl] at h
  exact foldlM_addShapes _ _ _ _ h

/-- A successful `collectRows` of a non-empty list pins its first entry. -/
theorem collectRows_getD0 {l : List (Option Shape4)} {r : List Shape4}
    (h : collectRows l = some r) (hl : 0 < l.length) (d : Shape4) :
    l.getD 0 none = some (r.getD 0 d) := by
  cases l with
  | nil => simp at hl
  | cons o rest =>
    cases o with
    | none => exact Option.noConfusion h
    | some s =>
      have hc : collectRows (some s :: rest) =
          (collectRows rest).bind fun rr => some (s :: rr) := rfl
      rw [hc] at h
      cases hrest : collectRows rest with
      | none =>
        rw [hrest] at h
        exact Option.noConfusion h
      | some rr =>
        rw [hrest, Option.some_bind] at h
        rw [← Option.some.inj h]
        rfl

/-- When a module succeeds, its row-0 output shape is branch 0's block
output shape (the fused adds all agreed with it). -/
theorem moduleShapes_getD0_of_some (st : StageCfg) (fusion : Bool)
    (hnb : 0 < st.num_branches) {xs ys : List Shape4}
    (h : moduleShapes st fusion xs = some ys) :
    ys.getD 0 ⟨0, 0, 0, 0⟩ =
      Nat.iterate (blockShape st.block (st.num_channels.getD 0 0) 1)
        (st.num_blocks.getD 0 0) (xs.getD 0 ⟨0, 0, 0, 0⟩) := by
  unfold moduleShapes at h
  by_cases h1 : st.num_branches = 1
  · rw [if_pos h1] at h
    rw [← Option.some.inj h]
    rfl
  · rw [if_neg h1] at h
    by_cases hf : fusion = true
    · rw [hf, if_pos rfl] at h
      have h0 := collectRows_getD0 h
        (by rw [List.length_map, List.length_range]; exact hnb) ⟨0, 0, 0, 0⟩
      rw [getD_map_range _ _ _ hnb] at h0
      have hz := fuseRowShape_zero h0
      rw [hz]
      unfold branchOutputs
      rw [getD_map_range _ _ _ hnb]
      rfl
    · rw [Bool.not_eq_true] at hf
      rw [hf] at h
      simp only [Bool.false_eq_true, if_false] at h
      have h0 := collectRows_getD0 h
        (by rw [List.length_map, List.length_range]; exact hnb) ⟨0, 0, 0, 0⟩
      rw [getD_map_range _ _ _ hnb, if_pos rfl] at h0
      have hz := fuseRowShape_zero h0
      rw [hz]
      unfold branchOutputs
      rw [getD_map_range _ _ _ hnb]
      rfl

/-- Branch 0 of a succeeding chain of modules keeps batch and spatial
dimensions. -/
theorem stage_foldlM_getD0 (st : StageCfg) (hnb : 0 < st.num_branches)
    (flag : ℕ → Bool) :
    ∀ (l : List ℕ) (xs ys : List Shape4),
      1 ≤ (xs.getD 0 ⟨0, 0, 0, 0⟩).h → 1 ≤ (xs.getD 0 ⟨0, 0, 0, 0⟩).w →
      l.foldlM (fun t i => moduleShapes st (flag i) t) xs = some ys →
      (ys.getD 0 ⟨0, 0, 0, 0⟩).b = (xs.getD 0 ⟨0, 0, 0, 0⟩).b ∧
      (ys.getD 0 ⟨0, 0, 0, 0⟩).h = (xs.getD 0 ⟨0, 0, 0, 0⟩).h ∧
      (ys.getD 0 ⟨0, 0, 0, 0⟩).w = (xs.getD 0 ⟨0, 0, 0, 0⟩).w := by
  intro l
  induction l with
  | nil =>
    intro xs ys _ _ h
    rw [List.foldlM_nil] at h
    rw [← Option.some.inj h]
    exact ⟨rfl, rfl, rfl⟩
  | cons i rest ih =>
    intro xs ys hh hw h
    rw [List.foldlM_cons] at h
    cases hm : moduleShapes st (flag i) xs with
    | none =>
      rw [hm] at h
      exact Option.noConfusion h
    | some t =>
      rw [hm] at h
      have h2 : rest.foldlM (fun t i => moduleShapes st (flag i) t) t = some ys := h
      have ht0 := moduleShapes_getD0_of_some st (flag i) hnb hm
      have hbr := iterate_blockShape_spatial st.block (st.num_channels.getD 0 0)
        (st.num_blocks.getD 0 0) (xs.getD 0 ⟨0, 0, 0, 0⟩) hh hw
      obtain ⟨ib, ihh, iww⟩ := ih t ys (by rw [ht0, hbr.2.1]; exact hh)
        (by rw [ht0, hbr.2.2]; exact hw) h2
      exact ⟨by rw [ib, ht0, hbr.1], by rw [ihh, ht0, hbr.2.1],
        by rw [iww, ht0, hbr.2.2]⟩

/-- `stageShapes` form of `stage_foldlM_getD0`. -/
theorem stageShapes_getD0_of_some (st : StageCfg) (fusion : Bool)
    (hnb : 0 < st.num_branches) {xs ys : List Shape4}
    (hh : 1 ≤ (xs.getD 0 ⟨0, 0, 0, 0⟩).h) (hw : 1 ≤ (xs.getD 0 ⟨0, 0, 0, 0⟩).w)
    (h : stageShapes st fusion xs = some ys) :
    (ys.getD 0 ⟨0, 0, 0, 0⟩).b = (xs.getD 0 ⟨0, 0, 0, 0⟩).b ∧
    (ys.getD 0 ⟨0, 0, 0, 0⟩).h = (xs.getD 0 ⟨0, 0, 0, 0⟩).h ∧
    (ys.getD 0 ⟨0, 0, 0, 0⟩).w = (xs.getD 0 ⟨0, 0, 0, 0⟩).w :=
  stage_foldlM_getD0 st hnb
    (fun i => if fusion = false ∧ i = st.num_modules - 1 then false else true)
    (List.range st.num_modules) xs ys hh hw h

/-- Transition entry 0 keeps batch and spatial dimensions. -/
theorem transitionBranchShape_zero (pre cur : List ℕ) (hpre : 0 < pre.length)
    (s : Shape4) (hh : 1 ≤ s.h) (hw : 1 ≤ s.w) :
    (transitionBranchShape pre cur 0 s).b = s.b ∧
    (transitionBranchShape pre cur 0 s).h = s.h ∧
    (transitionBranchShape pre cur 0 s).w = s.w := by
  unfold transitionBranchShape
  rw [if_pos hpre]
  split
  · exact ⟨rfl, convOutDim_k3s1 _ hh, convOutDim_k3s1 _ hw⟩
  · exact ⟨rfl, rfl, rfl⟩

/-- Batch and spatial dimensions of the stem output. -/
theorem stemShape_fields (b c h w a d : ℕ) (ha : h = 4 * a) (hd : w = 4 * d)
    (ha1 : 1 ≤ a) (hd1 : 1 ≤ d) :
    (stemShape ⟨b, c, h, w⟩).b = b ∧ (stemShape ⟨b, c, h, w⟩).h = a ∧
    (stemShape ⟨b, c, h, w⟩).w = d := by
  have hc1 : conv2dShape 64 3 2 1 (⟨b, c, h, w⟩ : Shape4) = ⟨b, 64, 2 * a, 2 * d⟩ := by
    simp only [conv2dShape, convOutDim, Shape4.mk.injEq, true_and]
    omega
  have hc2 : conv2dShape 64 3 2 1 (⟨b, 64, 2 * a, 2 * d⟩ : Shape4) = ⟨b, 64, a, d⟩ := by
    simp only [conv2dShape, convOutDim, Shape4.mk.injEq, true_and]
    omega
  unfold stemShape makeLayerShape
  rw [hc1, hc2]
  exact iterate_blockShape_spatial .bottleneck 64 4 ⟨b, 64, a, d⟩ ha1 hd1

/-- Claim C4: for every input image batch `[b, 3, h, w]` (spatial sizes
divisible by 4, well-formed configuration: final kernel 1 or 3, at least one
branch per stage, and stage 3's branch-0 channel count matching stage 2's so
that `transition2[0]` is `None`), whenever `TransActionH.forward` completes
— the fusion adds all agree in shape, `forwardPoseShape` returning `some` —
the pose heatmap output has shape `[b, NUM_JOINTS, h/4, w/4]`. -/
theorem C4_heatmap_shape (cfg : ModelCfg) (b h w : ℕ) (s : Shape4)
    (hh4 : 4 ∣ h) (hw4 : 4 ∣ w) (hh : 0 < h) (hw : 0 < w)
    (hk : cfg.final_conv_kernel = 1 ∨ cfg.final_conv_kernel = 3)
    (hnb2 : 0 < cfg.stage2.num_branches) (hnb3 : 0 < cfg.stage3.num_branches)
    (hch0 : 0 < cfg.stage2.num_channels.length)
    (hmatch : (expandedChannels cfg.stage3).getD 0 0 =
      (expandedChannels cfg.stage2).getD 0 0)
    (hrun : forwardPoseShape cfg ⟨b, 3, h, w⟩ = some s) :
    s = ⟨b, cfg.num_joints, h / 4, w / 4⟩ := by
  obtain ⟨a, ha⟩ := hh4
  obtain ⟨d, hd⟩ := hw4
  have ha1 : 1 ≤ a := by omega
  have hd1 : 1 ≤ d := by omega
  have hstem := stemShape_fields b 3 h w a d ha hd ha1 hd1
  -- transition1 entry 0
  have h2in : (stage2Inputs cfg (stemShape ⟨b, 3, h, w⟩)).getD 0 ⟨0, 0, 0, 0⟩ =
      transitionBranchShape [256] (expandedChannels cfg.stage2) 0
        (stemShape ⟨b, 3, h, w⟩) := by
    unfold stage2Inputs
    rw [getD_map_range _ _ _ hnb2]
  have htr := transitionBranchShape_zero [256] (expandedChannels cfg.stage2)
    (by simp) (stemShape ⟨b, 3, h, w⟩) (by rw [hstem.2.1]; exact ha1)
    (by rw [hstem.2.2]; exact hd1)
  have hin2b : ((stage2Inputs cfg (stemShape ⟨b, 3, h, w⟩)).getD 0 ⟨0, 0, 0, 0⟩).b = b := by
    rw [h2in, htr.1, hstem.1]
  have hin2h : ((stage2Inputs cfg (stemShape ⟨b, 3, h, w⟩)).getD 0 ⟨0, 0, 0, 0⟩).h = a := by
    rw [h2in, htr.2.1, hstem.2.1]
  have hin2w : ((stage2Inputs cfg (stemShape ⟨b, 3, h, w⟩)).getD 0 ⟨0, 0, 0, 0⟩).w = d := by
    rw [h2in, htr.2.2, hstem.2.2]
  -- unpack the two stage runs
  unfold forwardPoseShape at hrun
  cases hy2run : stageShapes cfg.stage2 true (stage2Inputs cfg (stemShape ⟨b, 3, h, w⟩)) with
  | none =>
    rw [hy2run] at hrun
    exact Option.noConfusion hrun
  | some y2 =>
    rw [hy2run] at hrun
    have hrun2 : (do
        let y3 ← stageShapes cfg.stage3 false (stage3Inputs cfg y2)
        some (conv2dShape cfg.num_joints cfg.final_conv_kernel 1
          (if cfg.final_conv_kernel = 3 then 1 else 0)
          (conv2dShape cfg.d_model 1 1 0 (y3.getD 0 ⟨0, 0, 0, 0⟩)))) = some s := hrun
    cases hy3run : stageShapes cfg.stage3 false (stage3Inputs cfg y2) with
    | none =>
      rw [hy3run] at hrun2
      exact Option.noConfusion hrun2
    | some y3 =>
      rw [hy3run] at hrun2
      have hrun3 : some (conv2dShape cfg.num_joints cfg.final_conv_kernel 1
          (if cfg.final_conv_kernel = 3 then 1 else 0)
          (conv2dShape cfg.d_model 1 1 0 (y3.getD 0 ⟨0, 0, 0, 0⟩))) = some s := hrun2
      -- stage 2
      have hy2 := stageShapes_getD0_of_some cfg.stage2 true hnb2
        (by rw [hin2h]; exact ha1) (by rw [hin2w]; exact hd1) hy2run
      have hy2b : (y2.getD 0 ⟨0, 0, 0, 0⟩).b = b := by rw [hy2.1]; exact hin2b
      have hy2h : (y2.getD 0 ⟨0, 0, 0, 0⟩).h = a := by rw [hy2.2.1]; exact hin2h
      have hy2w : (y2.getD 0 ⟨0, 0, 0, 0⟩).w = d := by rw [hy2.2.2]; exact hin2w
      -- transition2 entry 0 is None under hmatch
      have h3in : (stage3Inputs cfg y2).getD 0 ⟨0, 0, 0, 0⟩ =
          y2.getD 0 ⟨0, 0, 0, 0⟩ := by
        unfold stage3Inputs
        rw [getD_map_range _ _ _ hnb3]
        rw [if_pos ⟨by unfold expandedChannels; rw [List.length_map]; exact hch0, hmatch⟩]
      -- stage 3
      have hy3 := stageShapes_getD0_of_some cfg.stage3 false hnb3
        (by rw [h3in, hy2h]; exact ha1) (by rw [h3in, hy2w]; exact hd1) hy3run
      have hYb : (y3.getD 0 ⟨0, 0, 0, 0⟩).b = b := by rw [hy3.1, h3in]; exact hy2b
      have hYh : (y3.getD 0 ⟨0, 0, 0, 0⟩).h = a := by rw [hy3.2.1, h3in]; exact hy2h
      have hYw : (y3.getD 0 ⟨0, 0, 0, 0⟩).w = d := by rw [hy3.2.2, h3in]; exact hy2w
      -- reduce + encoder detour + final layer
      rw [← Option.some.inj hrun3]
      simp only [conv2dShape, Shape4.mk.injEq]
      rw [hYb, hYh, hYw]
      rcases hk with hk | hk <;> rw [hk] <;> norm_num [convOutDim] <;> omega

theorem C4_witness :
    forwardPoseShape exCfg ⟨2, 3, 256, 192⟩ = some ⟨2, 17, 64, 48⟩ ∧
    (⟨2, 17, 64, 48⟩ : Shape4) = ⟨2, exCfg.num_joints, 256 / 4, 192 / 4⟩ := by
  have hrun : forwardPoseShape exCfg ⟨2, 3, 256, 192⟩ = some ⟨2, 17, 64, 48⟩ := by decide
  exact ⟨hrun, C4_heatmap_shape exCfg 2 256 192 ⟨2, 17, 64, 48⟩ (by decide) (by decide)
    (by decide) (by decide) (Or.inl rfl) (by decide) (by decide) (by decide)
    (by decide) hrun⟩

/-! ## Helper lemmas and theorems for C5 -/

theorem combineDim_one_left (b : ℕ) : combineDim 1 b = some b := by
  simp [combineDim]

theorem combineDim_one_right (a : ℕ) : combineDim a 1 = some a := by
  by_cases h : a = 1 <;> simp [combineDim, h]

theorem combineDim_self (a : ℕ) : combineDim a a = some a := by
  by_cases h : a = 1 <;> simp [combineDim, h]

theorem broadcast_row (h w : ℕ) : broadcastShapes [1, h, w] [1, 1, w] = some [1, h, w] := by
  simp [broadcastShapes, combineAll, combineDim_one_left, combineDim_one_right,
    combineDim_self]

theorem broadcast_col (h w : ℕ) : broadcastShapes [1, h, w] [1, h, 1] = some [1, h, w] := by
  simp [broadcastShapes, combineAll, combineDim_one_left, combineDim_one_right,
    combineDim_self]

theorem broadcast_dimt (h w d : ℕ) :
    broadcastShapes [1, h, w, 1] [d] = some [1, h, w, d] := by
  simp [broadcastShapes, combineAll, List.replicate, combineDim_one_left,
    combineDim_one_right]

theorem stackPairShape_self (dim : ℕ) (a : TShape) :
    stackPairShape dim a a = some (a.take dim ++ 2 :: a.drop dim) := by
  unfold stackPairShape
  rw [if_pos rfl]

theorem catPairShape_self (dim : ℕ) (a : TShape) :
    catPairShape dim a a = some (a.set dim (a.getD dim 0 + a.getD dim 0)) := by
  unfold catPairShape
  rw [if_pos ⟨rfl, fun _ _ _ => rfl⟩]

/-- Shape of the sine positional embedding for `d_model = 4 * m`. -/
theorem sine_shape (pe_h pe_w m : ℕ) (_hm : 1 ≤ m) :
    make_sine_position_embedding_shape pe_h pe_w (4 * m) =
      some [pe_h * pe_w, 1, 4 * m] := by
  have hd2 : 4 * m / 2 = 2 * m := by omega
  have he : (2 * m + 1) / 2 = m := by omega
  have ho : 2 * m / 2 = m := by omega
  unfold make_sine_position_embedding_shape cumsumShape
  simp [hd2, he, ho, broadcast_row, broadcast_col, broadcast_dimt, sliceHalfEven,
    sliceHalfOdd, stackPairShape_self, catPairShape_self, flattenFrom, permuteShape]
  omega

/-- Every attention call of a stack of post-norm layers receives
`query = key = input + pos` and `value = input`. -/
theorem encoder_forward_calls {T : Type} [Add T] (pos : T) :
    ∀ layers : List (EncoderLayerParams T),
      (∀ L ∈ layers, L.normalize_before = false) →
      ∀ src : T, ∀ c ∈ (encoder_forward layers false src (some pos)).2,
        c.query = c.value + pos ∧ c.key = c.query := by
  intro layers
  induction layers with
  | nil =>
    intro _ src c hc
    simp [encoder_forward] at hc
  | cons L rest ih =>
    intro hlr src c hc
    have hL : L.normalize_before = false := hlr L (List.mem_cons_self L rest)
    simp only [encoder_forward, List.mem_cons] at hc
    rcases hc with hc | hc
    · subst hc
      simp [layer_forward, hL, forward_post, with_pos_embed]
    · exact ih (fun L2 h2 => hlr L2 (List.mem_cons_of_mem _ h2)) _ c
        (by simpa using hc)

/-- Claim C5: the positional embedding (sine or learnable) has shape
`[(h/4) * (w/4), 1, d_model]` (for sine, `d_model` divisible by 4, as a
successful `torch.stack` requires), and in every transformer encoder layer
(post-norm, the constructors' configuration) the positional embedding is
added to that layer's flattened spatial features to form the query and key
of the self-attention, whose value is the features themselves. -/
theorem C5_position_embedding {T : Type} [Add T]
    (w h d_model m : ℕ) (hd : d_model = 4 * m) (hm : 1 ≤ m)
    (pe : PEType) (hpe : pe ≠ PEType.nonePE)
    (layers : List (EncoderLayerParams T))
    (hlayers : ∀ L ∈ layers, L.normalize_before = false)
    (norm : Option (T → T)) (src pos : T) :
    make_position_embedding_shape w h d_model pe =
      some [(h / 4) * (w / 4), 1, d_model] ∧
    ∀ c ∈ (transformer_encoder_forward layers norm false src (some pos)).2,
      c.query = c.value + pos ∧ c.key = c.query := by
  constructor
  · cases pe with
    | nonePE => exact absurd rfl hpe
    | learnable => rfl
    | sine =>
      subst hd
      exact sine_shape (h / 4) (w / 4) m hm
  · intro c hc
    exact encoder_forward_calls pos layers hlayers src c hc

theorem C5_witness :
    make_position_embedding_shape 8 8 8 PEType.sine = some [4, 1, 8] ∧
    ∀ c ∈ (transformer_encoder_forward [exLayer] none false (0 : ℤ) (some 5)).2,
      c.query = c.value + 5 ∧ c.key = c.query := by
  have h := C5_position_embedding 8 8 8 2 rfl (by decide) PEType.sine (by decide)
    [exLayer] (fun L hL => by rw [List.mem_singleton] at hL; subst hL; rfl)
    none (0 : ℤ) 5
  exact ⟨h.1, h.2⟩

/-! ## Theorems for C7 and C8 -/

/-- Claim C7: the action output returned by `forward` is the pooled-CNN
concat branch alone — the returned pair is `(y, concat)`, and changing the
loss-weight coefficients `a1, a2, a3`, the action transformer encoder, the
pooled encoder action head, or the skeleton-vector branch changes neither
returned value (the weighted combination is commented out). -/
theorem C7_action_output {T : Type} (P : ForwardParams T) (x : T)
    (a1 a2 a3 : ℚ) (gea : T → Option T → T) (p1 p2 skel : T → T) :
    (forwardT P x).ret = ((forwardT P x).y, (forwardT P x).concat) ∧
    (forwardT { P with
                  a1 := a1, a2 := a2, a3 := a3,
                  global_encoder_action := gea,
                  action_encoder_branch_part1 := p1,
                  action_encoder_branch_part2 := p2,
                  action_skeleton_branch := skel } x).ret = (forwardT P x).ret :=
  ⟨rfl, rfl⟩

/-- Claim C8: `forward` runs two separate encoder stacks on the same
flattened, linearly-projected branch-0 feature map `xf` with the same
positional embedding: `global_encoder`'s output feeds the pose heatmap head
(`permute/view` then `final_layer`), and `global_encoder_action`'s output
feeds the action-classification head (`permute/view`, pooled part 1,
flatten, linear part 2). -/
theorem C8_two_encoders {T : Type} (P : ForwardParams T) (x : T) :
    (∃ feat, (forwardT P x).xf = P.flatten2permute (P.reduce feat)) ∧
    (forwardT P x).y = P.final_layer (P.permuteView
      (P.global_encoder (forwardT P x).xf P.pos_embedding)) ∧
    (forwardT P x).r = P.action_encoder_branch_part2 (P.flatten1
      (P.action_encoder_branch_part1 (P.permuteView
        (P.global_encoder_action (forwardT P x).xf P.pos_embedding)))) :=
  ⟨⟨_, rfl⟩, rfl, rfl⟩

end TransPose
